import Mathlib

/-!
# Verification of the litter-maps pipeline

Shallow embedding, in Lean 4, of the address-to-imagery-to-feature-vector
pipeline of the `litter-maps` repository (`coordinates_extrator.py`,
`image_extractor.py`), together with theorems settling the testable
properties of its specification.

External collaborators (the geocoding provider, the imagery provider, the
filesystem listing) are modelled as explicit parameters; fallible Python
code (indexing an empty list, `numpy.reshape` with a mismatched size) is
modelled with `Except`; numeric payloads that the scripts merely carry
around without arithmetic (latitude, longitude, pixel values, litter
scores) are modelled by an arbitrary type parameter.
-/

namespace LitterMaps

/-! ## Python string primitives

The scripts use `str.split(' ')`, `' '.join`, `str.isdecimal`, `int(...)`,
`str(...)` and `range(start, stop, step)`.  We model them on `List Char`
(a faithful rendering of a Python `str` for the ASCII data at hand) and
wrap them for `String`.
-/

/-- Python `s.split(' ')` on a character list: split on every single space,
keeping empty fields (`"".split(' ') == [""]`, `" ".split(' ') == ["", ""]`). -/
def splitCh : List Char → List (List Char)
  | [] => [[]]
  | c :: rest =>
    if c = ' ' then [] :: splitCh rest
    else
      match splitCh rest with
      | [] => [[c]]
      | t :: ts => (c :: t) :: ts

/-- Python `' '.join(parts)` on character lists. -/
def joinCh : List (List Char) → List Char
  | [] => []
  | [x] => x
  | x :: y :: ys => x ++ ' ' :: joinCh (y :: ys)

/-- Python `address.split(' ')`. -/
def pySplit (s : String) : List String :=
  (splitCh s.data).map fun l => ⟨l⟩

/-- Python `' '.join(parts)`. -/
def pyJoinSpace (parts : List String) : String :=
  ⟨joinCh (parts.map String.data)⟩

/-- An ASCII decimal digit (Python `str.isdecimal` restricted to the ASCII
data of this dataset). -/
def isDecChar (c : Char) : Bool := '0' ≤ c && c ≤ '9'

/-- Python `s.isdecimal()`: non-empty and every character a decimal digit. -/
def pyIsDecimal (s : String) : Bool :=
  !s.data.isEmpty && s.data.all isDecChar

/-- Value of an ASCII digit character. -/
def digitVal (c : Char) : Nat := c.toNat - 48

/-- Python `int(s)` on a plain digit string: `none` unless `s` is non-empty
and all digits; leading zeros are accepted (`int("007") == 7`). -/
def pyIntDigits (l : List Char) : Option Nat :=
  if l ≠ [] ∧ l.all isDecChar then
    some (l.foldl (fun a c => 10 * a + digitVal c) 0)
  else none

/-- Core of `pyInt` on the character list: an optional sign followed by digits,
which is the shape of the tokens the scripts feed to `int` (split tokens
carry no whitespace). -/
def pyIntCh : List Char → Option Int
  | [] => none
  | c :: rest =>
    if c = '-' then (pyIntDigits rest).map fun m => -(m : Int)
    else if c = '+' then (pyIntDigits rest).map fun m => (m : Int)
    else (pyIntDigits (c :: rest)).map fun m => (m : Int)

/-- Python `int(s)` for an optionally signed decimal literal. -/
def pyInt (s : String) : Option Int :=
  pyIntCh s.data

/-- Decimal digit characters of a natural number, most significant first
(`Nat.digits` base 10, reversed), with `0 ↦ "0"` as in Python. -/
def natReprCh (n : Nat) : List Char :=
  if n = 0 then ['0'] else (Nat.digits 10 n).reverse.map Nat.digitChar

/-- Python `str(i)` for an `int`. -/
def pyStr (i : Int) : String :=
  if i < 0 then ⟨'-' :: natReprCh i.natAbs⟩ else ⟨natReprCh i.natAbs⟩

/-- Python `s.endswith(suffix)`: suffix test on the character lists. -/
def pyEndsWith (s suffix : String) : Bool :=
  List.isSuffixOf suffix.data s.data

/-- Python `range(start, stop, step)` (and the set of outcomes of
`random.randrange(start, stop, step)`), for a positive `step`. -/
def pyRange (start stop step : Nat) : List Nat :=
  (List.range ((stop - start + step - 1) / step)).map fun i => start + step * i

/-! ## `coordinates_extrator.py`: the Geocoder

A geocode candidate is a dictionary with (at least) a `geometry.location`
holding `lat` and `lng`; the coordinate payload type is a parameter `α`
because the script never computes with the coordinates, only stores them.
The provider `GMAPS.geocode` is an external service, modelled as a
function from the queried address to its candidate list.
-/

/-- The `geometry.location` sub-dictionary of a geocode candidate. -/
structure GeoLocation (α : Type) where
  lat : α
  lng : α
  deriving DecidableEq

/-- The `geometry` sub-dictionary of a geocode candidate. -/
structure GeoGeometry (α : Type) where
  location : GeoLocation α
  deriving DecidableEq

/-- One geocode candidate, as returned by the provider.  `formattedAddress`
stands for the many further keys the script never reads. -/
structure Geocode (α : Type) where
  geometry : GeoGeometry α
  formattedAddress : String
  deriving DecidableEq

/-- Model of `coordinates_extrator.extract_geocode`: query the provider and return
`geocode_result[0]`; indexing an empty list raises `IndexError`. -/
def extract_geocode {α : Type} (provider : String → List (Geocode α))
    (address : String) : Except String (Geocode α) :=
  match provider address with
  | [] => .error "IndexError: list index out of range"
  | g :: _ => .ok g

/-- Model of `extract_lat`: `geocode['geometry']['location']['lat']`. -/
def extract_lat {α : Type} (geocode : Geocode α) : α :=
  geocode.geometry.location.lat

/-- Model of `extract_lng`: `geocode['geometry']['location']['lng']`. -/
def extract_lng {α : Type} (geocode : Geocode α) : α :=
  geocode.geometry.location.lng

/-! ## `image_extractor.py`: the perturbing Geocoder variant

`image_extractor.extract_geocode` first rewrites the address: it splits on
spaces, adds `random.randrange(30, 80, 10)` to the integer value of the
first token and rejoins.  The random draw is modelled as an explicit
parameter `r`, quantified over the outcome set `pyRange 30 80 10` in the
theorems.
-/

/-- Lines 52–55 of `image_extractor.extract_geocode`: the address actually
sent to the provider.  `none` models the `ValueError` of
`int(split_address[0])` on a non-numeric first token. -/
def queried_address (r : Int) (address : String) : Option String :=
  let split_address := pySplit address
  (pyInt (split_address.headD "")).map fun house0 =>
    pyStr (house0 + r) ++ " " ++ pyJoinSpace split_address.tail

/-- Model of `image_extractor.extract_geocode`: perturb the house number, query the
provider with the new address, return the first candidate. -/
def extract_geocode_img {α : Type} (provider : String → List (Geocode α))
    (r : Int) (address : String) : Except String (Geocode α) :=
  match queried_address r address with
  | none => .error "ValueError: invalid literal for int()"
  | some new_address =>
    match provider new_address with
    | [] => .error "IndexError: list index out of range"
    | g :: _ => .ok g

/-! ## `image_extractor.extract_image`: the Imagery Fetcher

The street-view call is external; we model the function by the value it
hands to the API wrapper: the parameter dictionaries (one per heading),
the folder images are downloaded to, and the path of the saved `links.txt`
manifest.  Latitude and longitude are taken as strings, as the function's
own docstring declares them, since they are only interpolated into the
`location` field.
-/

/-- One street-view request parameter dictionary. -/
structure SVParams where
  size : String
  location : String
  heading : Nat
  pitch : String
  key : String
  deriving DecidableEq

/-- The observable effect of `extract_image`: requests issued and paths
written. -/
structure ExtractImageResult where
  params : List SVParams
  download_dir : String
  links_path : String
  deriving DecidableEq

/-- Model of `image_extractor.extract_image` (the `street_score` argument is unused
by the source body). -/
def extract_image (api_key : String) (lat lng : String)
    (folder_name : String) (street_score : Int) : ExtractImageResult :=
  let folder_path := "image_downloads/" ++ folder_name
  let headings := pyRange 0 360 90
  let params := headings.map fun heading =>
    { size := "640x640"
      location := lat ++ "," ++ lng
      heading := heading
      pitch := "-45"
      key := api_key : SVParams }
  { params := params
    download_dir := folder_path
    links_path := folder_path ++ "/links.txt" }

/-! ## `image_extractor.extract_images_worker`: the Parallel Dispatcher

`extract_images_worker` loops `while len(THREAD_QUEUE) > 0:` /
`kwargs = THREAD_QUEUE.pop()` / `extract_image(**kwargs)`.  Under CPython
each of the three operations is individually atomic (the `pop` is a single
bytecode under the GIL), but the length check and the pop are two separate
atomic actions.  We model a pool of workers as a small transition system
whose steps interleave those atomic actions arbitrarily: a worker at the
check either proceeds towards the pop (queue observed non-empty) or
finishes; a worker at the pop either atomically removes the *last* queue
element (Python `list.pop()`) or, on an empty queue, dies with
`IndexError`; a worker holding a job executes it and returns to the check.
-/

/-- Program counter of one worker thread. -/
inductive WStatus (α : Type) where
  | atCheck : WStatus α
  | atPop : WStatus α
  | atExec (job : α) : WStatus α
  | done : WStatus α
  | crashed : WStatus α
  deriving DecidableEq

/-- A worker that has left its loop, normally or by an unhandled
`IndexError`. -/
def WStatus.finished {α : Type} : WStatus α → Bool
  | .done => true
  | .crashed => true
  | _ => false

/-- Global state: the shared `THREAD_QUEUE`, the workers, and the log of
jobs whose `extract_image` call has run. -/
structure DState (α : Type) where
  queue : List α
  workers : List (WStatus α)
  executed : List α

/-- Initial state: the driver has enqueued `jobs` and started `n` worker
threads at the top of their loop. -/
def initState {α : Type} (jobs : List α) (n : Nat) : DState α :=
  ⟨jobs, List.replicate n .atCheck, []⟩

/-- One atomic step of the dispatcher, by any single worker. -/
inductive DStep {α : Type} : DState α → DState α → Prop where
  | checkPos (s : DState α) (i : Nat) (h : i < s.workers.length) :
      s.workers.get ⟨i, h⟩ = .atCheck → s.queue ≠ [] →
      DStep s ⟨s.queue, s.workers.set i .atPop, s.executed⟩
  | checkNeg (s : DState α) (i : Nat) (h : i < s.workers.length) :
      s.workers.get ⟨i, h⟩ = .atCheck → s.queue = [] →
      DStep s ⟨s.queue, s.workers.set i .done, s.executed⟩
  | popPos (s : DState α) (i : Nat) (h : i < s.workers.length)
      (j : α) (q : List α) :
      s.workers.get ⟨i, h⟩ = .atPop → s.queue = q ++ [j] →
      DStep s ⟨q, s.workers.set i (.atExec j), s.executed⟩
  | popNeg (s : DState α) (i : Nat) (h : i < s.workers.length) :
      s.workers.get ⟨i, h⟩ = .atPop → s.queue = [] →
      DStep s ⟨s.queue, s.workers.set i .crashed, s.executed⟩
  | exec (s : DState α) (i : Nat) (h : i < s.workers.length) (j : α) :
      s.workers.get ⟨i, h⟩ = .atExec j →
      DStep s ⟨s.queue, s.workers.set i .atCheck, s.executed ++ [j]⟩

/-- States reachable from `s` by interleaved worker steps. -/
def DReach {α : Type} (s t : DState α) : Prop :=
  Relation.ReflTransGen DStep s t

/-- Jobs popped but whose `extract_image` call has not yet returned. -/
def heldJobs {α : Type} (ws : List (WStatus α)) : List α :=
  ws.flatMap fun w =>
    match w with
    | .atExec j => [j]
    | _ => []

/-! ## `image_extractor.get_data`: the Row Selector

A CSV row carries the five columns the script touches; the score payload
type is a parameter `σ` (never computed with).  `os.listdir
('image_downloads')` is an external input, passed as `listing`.  Each
pandas operation of the source is transliterated in the source's order.
-/

/-- One row of `Litter_Index_Blocks.csv`, restricted to the columns the
scripts read. -/
structure Row (σ : Type) where
  lr_hundred_block : String
  street_class_name : String
  score_color : String
  objectid : Int
  hundred_block_score : σ
  deriving DecidableEq

/-- Model of `pandas.DataFrame.drop_duplicates(key)` with its default
`keep='first'`: scan in order, keeping a row when its key has not been
seen yet. -/
def drop_duplicates {σ : Type} (key : Row σ → String) :
    List String → List (Row σ) → List (Row σ)
  | _, [] => []
  | seen, r :: rs =>
    if key r ∈ seen then drop_duplicates key seen rs
    else r :: drop_duplicates key (key r :: seen) rs

/-- Model of `image_extractor.get_data`: the sequence of filters of lines 186–209.
`data0` stands for the table read from `LITTER_INDEX_FILE`; `listing` for
`os.listdir('image_downloads')`. -/
def get_data {σ : Type} (listing : List String)
    (street_class_names score_colors : List String)
    (data0 : List (Row σ)) : List (Row σ) :=
  -- data['LR_HUNDRED_BLOCK'].str.split(' ', expand=True)[0].str.isdecimal()
  let data1 := data0.filter fun r =>
    pyIsDecimal ((pySplit r.lr_hundred_block).headD "")
  -- data['STREET_CLASS_NAME'].isin(street_class_names)
  let data2 := data1.filter fun r => r.street_class_name ∈ street_class_names
  -- data['SCORE_COLOR'].isin(score_colors)
  let data3 := data2.filter fun r => r.score_color ∈ score_colors
  -- data.drop_duplicates('LR_HUNDRED_BLOCK')
  let data4 := drop_duplicates (fun r => r.lr_hundred_block) [] data3
  -- ~data['OBJECTID'].astype(str).isin(os.listdir('image_downloads'))
  let data5 := data4.filter fun r => pyStr r.objectid ∉ listing
  -- data.iloc[:1]
  data5.take 1

/-! ### Spec-side Row Selector

For the refinement claim about `get_data`, the specification's filter
pipeline is written out independently, following the spec's wording:
six stages, applied in its stated order, with "drop duplicate addresses
keeping the first occurrence" rendered directly as "keep a row exactly
when no earlier row of the list has the same address".
-/

/-- Spec stage (a): the leading space-delimited token of the address is a
non-empty string of decimal digits. -/
def specNumericLead {σ : Type} (r : Row σ) : Bool :=
  pyIsDecimal ((pySplit r.lr_hundred_block).headD "")

/-- Spec stage (d), with the already-scanned prefix made explicit: a row is
kept exactly when no earlier row carries the same key. -/
def firstOccurrenceAux {σ : Type} (key : Row σ → String)
    (earlier : List (Row σ)) : List (Row σ) → List (Row σ)
  | [] => []
  | r :: rs =>
    if key r ∈ earlier.map key then firstOccurrenceAux key (earlier ++ [r]) rs
    else r :: firstOccurrenceAux key (earlier ++ [r]) rs

/-- Spec stage (d): drop duplicate keys keeping the first occurrence. -/
def firstOccurrenceOnly {σ : Type} (key : Row σ → String)
    (l : List (Row σ)) : List (Row σ) :=
  firstOccurrenceAux key [] l

/-- The Row Selector as the specification words it: stages (a)–(f) in
order. -/
def rowSelectorSpec {σ : Type} (listing : List String)
    (street_class_names score_colors : List String)
    (rows : List (Row σ)) : List (Row σ) :=
  let stageA := rows.filter specNumericLead
  let stageB := stageA.filter fun r => r.street_class_name ∈ street_class_names
  let stageC := stageB.filter fun r => r.score_color ∈ score_colors
  let stageD := firstOccurrenceOnly (fun r => r.lr_hundred_block) stageC
  let stageE := stageD.filter fun r => pyStr r.objectid ∉ listing
  stageE.take 1

/-! ## `image_extractor.extract_pixel_data`: the Pixel Flattener

Per record folder, the source loops over `os.listdir`, decodes every file
whose name ends in `.jpg` into an RGB array, flattens it, appends the
folder's street score, collects the rows, then reshapes the stacked data
to `(4, 640*640*3 + 1)` — `numpy.reshape` raising `ValueError` when the
element count does not match.  A decoded image is a pixel grid (rows of
RGB triples) over the opaque pixel type; a folder entry pairs a file name
with its decoded content (decoding itself, `PIL.Image.open` +
`convert('RGB')`, is the external collaborator).
-/

/-- A decoded RGB image: a grid of RGB triples. -/
structure RGBImage (π : Type) where
  grid : List (List (π × π × π))
  deriving DecidableEq

/-- The image is `h` rows tall and every row is `w` pixels wide. -/
def RGBImage.hasSize {π : Type} (img : RGBImage π) (h w : Nat) : Prop :=
  img.grid.length = h ∧ ∀ row ∈ img.grid, row.length = w

/-- One directory entry of a record folder, with the image it would decode
to. -/
structure FolderFile (π : Type) where
  name : String
  img : RGBImage π
  deriving DecidableEq

/-- Model of `numpy.asarray(img)` flattened C-order: row-major, channels innermost
(what `np.append` produces from the `(h, w, 3)` array). -/
def flattenImage {π : Type} (img : RGBImage π) : List π :=
  img.grid.flatMap fun row => row.flatMap fun p => [p.1, p.2.1, p.2.2]

/-- The `for image in os.listdir(folder_path)` loop of
`extract_pixel_data`: keep `.jpg`-named files, flatten each, append the
street score as the trailing element. -/
def folderRows {π : Type} (street_score : π) :
    List (FolderFile π) → List (List π)
  | [] => []
  | f :: fs =>
    if pyEndsWith f.name ".jpg" then
      (flattenImage f.img ++ [street_score]) :: folderRows street_score fs
    else folderRows street_score fs

/-- Cut `l` into consecutive chunks of `c` elements (the row-major
re-chunking `numpy.reshape` performs); the last chunk may be short if `c`
does not divide the length, and `c = 0` yields nothing. -/
def chunkList {π : Type} (c : Nat) : List π → List (List π)
  | [] => []
  | x :: xs =>
    if h : c = 0 then []
    else (x :: xs).take c :: chunkList c ((x :: xs).drop c)
  termination_by l => l.length
  decreasing_by
    simp only [List.length_drop, List.length_cons]
    exact Nat.sub_lt (Nat.succ_pos _) (Nat.pos_of_ne_zero h)

/-- Model of `numpy.reshape(rows, (r, c))` on the stacked per-image rows: flatten in
C order and re-chunk, or raise `ValueError` when the element count is not
`r * c`. -/
def npReshape {π : Type} (r c : Nat) (rows : List (List π)) :
    Except String (List (List π)) :=
  let flat := rows.flatten
  if flat.length = r * c then .ok (chunkList c flat)
  else .error "ValueError: cannot reshape array"

/-- The per-folder body of `extract_pixel_data` (lines 226–245): collect
the flattened `.jpg` rows and reshape to `(4, 640*640*3 + 1)`; the `.ok`
value is the batch of rows appended to `data/pixel_data`. -/
def extract_pixel_data_folder {π : Type} (street_score : π)
    (files : List (FolderFile π)) : Except String (List (List π)) :=
  npReshape 4 (640 * 640 * 3 + 1) (folderRows street_score files)

/-! ## Lemmas on the Python string primitives -/

theorem splitCh_ne_nil (l : List Char) : splitCh l ≠ [] := by
  cases l with
  | nil => simp [splitCh]
  | cons c rest =>
    simp only [splitCh]
    by_cases hc : c = ' '
    · simp [hc]
    · simp only [hc, if_false]
      cases splitCh rest <;> simp

theorem joinCh_splitCh (l : List Char) : joinCh (splitCh l) = l := by
  induction l with
  | nil => rfl
  | cons c rest ih =>
    by_cases hc : c = ' '
    · subst hc
      have hs : splitCh (' ' :: rest) = [] :: splitCh rest := by simp [splitCh]
      rw [hs]
      cases h : splitCh rest with
      | nil => exact absurd h (splitCh_ne_nil rest)
      | cons t ts =>
        rw [h] at ih
        calc joinCh ([] :: t :: ts) = ' ' :: joinCh (t :: ts) := rfl
        _ = ' ' :: rest := by rw [ih]
    · cases h : splitCh rest with
      | nil => exact absurd h (splitCh_ne_nil rest)
      | cons t ts =>
        rw [h] at ih
        cases ts with
        | nil => simp_all [splitCh, joinCh]
        | cons y ys => simp_all [splitCh, joinCh]

theorem not_space_mem_splitCh (l : List Char) :
    ∀ t ∈ splitCh l, ' ' ∉ t := by
  induction l with
  | nil => simp [splitCh]
  | cons c rest ih =>
    by_cases hc : c = ' '
    · subst hc
      simp only [splitCh, if_pos rfl]
      intro t ht
      rcases List.mem_cons.mp ht with h | h
      · simp [h]
      · exact ih t h
    · cases h : splitCh rest with
      | nil => exact absurd h (splitCh_ne_nil rest)
      | cons t0 ts =>
        simp only [splitCh, hc, if_false, h]
        intro t ht
        rcases List.mem_cons.mp ht with h1 | h1
        · subst h1
          intro hmem
          rcases List.mem_cons.mp hmem with h2 | h2
          · exact hc h2.symm
          · exact ih t0 (h ▸ List.mem_cons_self t0 ts) h2
        · exact ih t (h ▸ List.mem_cons_of_mem t0 h1)

theorem splitCh_append_space (t r : List Char) (ht : ' ' ∉ t) :
    splitCh (t ++ ' ' :: r) = t :: splitCh r := by
  induction t with
  | nil => simp [splitCh]
  | cons c t ih =>
    have hc : c ≠ ' ' := fun h => ht (h ▸ List.mem_cons_self c t)
    have ht2 : ' ' ∉ t := fun h => ht (List.mem_cons_of_mem c h)
    have hrec := ih ht2
    simp only [List.cons_append, splitCh, hc, if_false, List.append_eq, hrec]

theorem data_append (s t : String) : (s ++ t).data = s.data ++ t.data := rfl

theorem mk_data (l : List Char) : (String.mk l).data = l := rfl

/-! ## Lemmas on decimal rendering and parsing -/

theorem digitChar_isDec {d : Nat} (hd : d < 10) :
    isDecChar (Nat.digitChar d) = true := by
  interval_cases d <;> decide

theorem digitVal_digitChar {d : Nat} (hd : d < 10) :
    digitVal (Nat.digitChar d) = d := by
  interval_cases d <;> decide

theorem foldl_base10_reverse (L : List Nat) (a : Nat) :
    L.reverse.foldl (fun x d => 10 * x + d) a =
      a * 10 ^ L.length + Nat.ofDigits 10 L := by
  induction L generalizing a with
  | nil => simp [Nat.ofDigits_nil]
  | cons d T ih =>
    simp only [List.reverse_cons, List.foldl_append, List.foldl_cons,
      List.foldl_nil, ih, List.length_cons, Nat.ofDigits_cons, pow_succ]
    ring

theorem foldl_digitVal_digitChar (L : List Nat) (a : Nat)
    (h : ∀ d ∈ L, d < 10) :
    L.foldl (fun x d => 10 * x + digitVal (Nat.digitChar d)) a =
      L.foldl (fun x d => 10 * x + d) a := by
  induction L generalizing a with
  | nil => rfl
  | cons d T ih =>
    simp only [List.foldl_cons, digitVal_digitChar (h d (List.mem_cons_self d T))]
    exact ih _ fun x hx => h x (List.mem_cons_of_mem d hx)

theorem pyIntDigits_natReprCh (n : Nat) :
    pyIntDigits (natReprCh n) = some n := by
  rcases Nat.eq_zero_or_pos n with h0 | hpos
  · subst h0; decide
  · have hn : n ≠ 0 := Nat.pos_iff_ne_zero.mp hpos
    have hlt : ∀ d ∈ Nat.digits 10 n, d < 10 := fun d hd =>
      Nat.digits_lt_base (by norm_num) hd
    have hne : Nat.digits 10 n ≠ [] := Nat.digits_ne_nil_iff_ne_zero.mpr hn
    simp only [natReprCh, hn, if_false]
    rw [pyIntDigits]
    rw [if_pos]
    · congr 1
      rw [List.foldl_map]
      have hrev : ∀ d ∈ (Nat.digits 10 n).reverse, d < 10 := fun d hd =>
        hlt d (List.mem_reverse.mp hd)
      rw [foldl_digitVal_digitChar _ 0 hrev]
      have := foldl_base10_reverse (Nat.digits 10 n) 0
      rw [this, Nat.ofDigits_digits, Nat.zero_mul, Nat.zero_add]
    · constructor
      · intro hcontra
        have hlen := congrArg List.length hcontra
        simp at hlen
        exact hne hlen
      · rw [List.all_eq_true]
        intro c hc
        rcases List.mem_map.mp hc with ⟨d, hd, rfl⟩
        exact digitChar_isDec (hlt d (List.mem_reverse.mp hd))

theorem natReprCh_all_dec (n : Nat) :
    ∀ c ∈ natReprCh n, isDecChar c = true := by
  intro c hc
  rcases Nat.eq_zero_or_pos n with h0 | hpos
  · subst h0
    simp [natReprCh] at hc
    subst hc; decide
  · have hn : n ≠ 0 := Nat.pos_iff_ne_zero.mp hpos
    simp only [natReprCh, hn, if_false] at hc
    rcases List.mem_map.mp hc with ⟨d, hd, rfl⟩
    exact digitChar_isDec (Nat.digits_lt_base (by norm_num) (List.mem_reverse.mp hd))

theorem natReprCh_ne_nil (n : Nat) : natReprCh n ≠ [] := by
  rcases Nat.eq_zero_or_pos n with h0 | hpos
  · subst h0; decide
  · have hn : n ≠ 0 := Nat.pos_iff_ne_zero.mp hpos
    simp only [natReprCh, hn, if_false]
    intro hcontra
    have hlen := congrArg List.length hcontra
    simp at hlen
    exact Nat.digits_ne_nil_iff_ne_zero.mpr hn hlen

theorem pyIntCh_natReprCh (n : Nat) :
    pyIntCh (natReprCh n) = some (n : Int) := by
  cases h : natReprCh n with
  | nil => exact absurd h (natReprCh_ne_nil n)
  | cons c rest =>
    have hdec : isDecChar c = true :=
      natReprCh_all_dec n c (h ▸ List.mem_cons_self c rest)
    have hm : c ≠ '-' := by intro hc; rw [hc] at hdec; exact absurd hdec (by decide)
    have hp : c ≠ '+' := by intro hc; rw [hc] at hdec; exact absurd hdec (by decide)
    have := pyIntDigits_natReprCh n
    rw [h] at this
    simp [pyIntCh, hm, hp, this]

theorem pyInt_pyStr (i : Int) : pyInt (pyStr i) = some i := by
  by_cases hi : i < 0
  · show pyIntCh (pyStr i).data = some i
    rw [pyStr, if_pos hi, mk_data]
    have h1 : pyIntCh ('-' :: natReprCh i.natAbs)
        = (pyIntDigits (natReprCh i.natAbs)).map fun m => -(m : Int) := rfl
    rw [h1, pyIntDigits_natReprCh]
    have h2 : -((i.natAbs : Int)) = i := by omega
    show some (-((i.natAbs : Nat) : Int)) = some i
    rw [h2]
  · show pyIntCh (pyStr i).data = some i
    rw [pyStr, if_neg hi, mk_data, pyIntCh_natReprCh]
    have h2 : ((i.natAbs : Int)) = i := by omega
    rw [h2]

theorem pyStr_no_space (i : Int) : ' ' ∉ (pyStr i).data := by
  intro hmem
  have hdig : ∀ c ∈ natReprCh i.natAbs, isDecChar c = true := natReprCh_all_dec _
  by_cases hi : i < 0
  · simp only [pyStr, if_pos hi, mk_data] at hmem
    rcases List.mem_cons.mp hmem with h | h
    · exact absurd h (by decide)
    · exact absurd (hdig ' ' h) (by decide)
  · simp only [pyStr, if_neg hi, mk_data] at hmem
    exact absurd (hdig ' ' hmem) (by decide)

/-! ## Claims about the Geocoder -/

/-- Claim C1: for every address whose geocoding provider response is a non-empty
candidate list, `extract_geocode` returns the first candidate
unconditionally, and `extract_lat` / `extract_lng` applied to that result
return exactly the latitude and longitude stored under the first
candidate's `geometry.location`. -/
theorem extract_geocode_first_candidate {α : Type}
    (provider : String → List (Geocode α)) (address : String)
    (g : Geocode α) (gs : List (Geocode α))
    (h : provider address = g :: gs) :
    extract_geocode provider address = .ok g ∧
    extract_lat g = g.geometry.location.lat ∧
    extract_lng g = g.geometry.location.lng := by
  refine ⟨?_, rfl, rfl⟩
  simp [extract_geocode, h]

theorem extract_geocode_first_candidate_witness :
    (fun _ : String => [Geocode.mk ⟨⟨(3995 : Int), -7516⟩⟩ "Market St"]) "100 Market St"
      = Geocode.mk ⟨⟨(3995 : Int), -7516⟩⟩ "Market St" :: [] ∧
    (extract_geocode (fun _ : String => [Geocode.mk ⟨⟨(3995 : Int), -7516⟩⟩ "Market St"])
        "100 Market St" = .ok (Geocode.mk ⟨⟨(3995 : Int), -7516⟩⟩ "Market St") ∧
      extract_lat (Geocode.mk ⟨⟨(3995 : Int), -7516⟩⟩ "Market St")
        = (Geocode.mk ⟨⟨(3995 : Int), -7516⟩⟩ "Market St").geometry.location.lat ∧
      extract_lng (Geocode.mk ⟨⟨(3995 : Int), -7516⟩⟩ "Market St")
        = (Geocode.mk ⟨⟨(3995 : Int), -7516⟩⟩ "Market St").geometry.location.lng) :=
  ⟨rfl, extract_geocode_first_candidate _ "100 Market St" _ [] rfl⟩

/-- Claim C5: for every address for which the provider returns zero candidates,
`extract_geocode` raises (`geocode_result[0]` on an empty list) and never
returns a value. -/
theorem extract_geocode_empty_raises {α : Type}
    (provider : String → List (Geocode α)) (address : String)
    (h : provider address = []) :
    extract_geocode provider address = .error "IndexError: list index out of range" ∧
    ∀ g : Geocode α, extract_geocode provider address ≠ .ok g := by
  refine ⟨by simp [extract_geocode, h], ?_⟩
  intro g
  simp [extract_geocode, h]

theorem extract_geocode_empty_raises_witness :
    (fun _ : String => ([] : List (Geocode Int))) "1 Nowhere" = [] ∧
    (extract_geocode (fun _ : String => ([] : List (Geocode Int))) "1 Nowhere"
        = .error "IndexError: list index out of range" ∧
      ∀ g : Geocode Int,
        extract_geocode (fun _ : String => ([] : List (Geocode Int))) "1 Nowhere" ≠ .ok g) :=
  ⟨rfl, extract_geocode_empty_raises _ "1 Nowhere" rfl⟩

/-! ## Claim about the perturbing Geocoder variant (C9) -/

/-- Claim C9: in the image-extraction variant, for every address whose leading
token parses as an integer `n` and every outcome `r` of
`random.randrange(30, 80, 10)` (that is, `r ∈ {30,40,50,60,70}`), the
address sent to the provider has leading number `n + r` and unchanged
remaining tokens, and it is never the original address. -/
theorem geocode_variant_never_queries_original (address : String) (n : Int)
    (r : Nat) (hr : r ∈ pyRange 30 80 10)
    (hn : pyInt ((pySplit address).headD "") = some n) :
    ∃ q : String,
      queried_address (r : Int) address = some q ∧
      pyInt ((pySplit q).headD "") = some (n + r) ∧
      pyJoinSpace (pySplit q).tail = pyJoinSpace (pySplit address).tail ∧
      q ≠ address ∧
      ∀ provider : String → List (Geocode Int),
        extract_geocode_img provider (r : Int) address = extract_geocode provider q := by
  have hr30 : 30 ≤ r := by
    have hset : pyRange 30 80 10 = [30, 40, 50, 60, 70] := by decide
    rw [hset] at hr
    simp only [List.mem_cons, List.not_mem_nil, or_false] at hr
    rcases hr with h | h | h | h | h <;> omega
  have hq : queried_address (r : Int) address
      = some (pyStr (n + r) ++ " " ++ pyJoinSpace (pySplit address).tail) := by
    show (pyInt ((pySplit address).headD "")).map
        (fun house0 => pyStr (house0 + r) ++ " " ++ pyJoinSpace (pySplit address).tail)
      = some (pyStr (n + r) ++ " " ++ pyJoinSpace (pySplit address).tail)
    rw [hn]
    rfl
  have hqdata : (pyStr (n + r) ++ " " ++ pyJoinSpace (pySplit address).tail).data
      = (pyStr (n + r)).data ++ ' ' ::
        joinCh ((pySplit address).tail.map String.data) := by
    rw [data_append, data_append, List.append_assoc]
    rfl
  have hsplitq : splitCh (pyStr (n + r) ++ " " ++ pyJoinSpace (pySplit address).tail).data
      = (pyStr (n + r)).data ::
        splitCh (joinCh ((pySplit address).tail.map String.data)) := by
    rw [hqdata]
    exact splitCh_append_space _ _ (pyStr_no_space _)
  have hps : pySplit (pyStr (n + r) ++ " " ++ pyJoinSpace (pySplit address).tail)
      = pyStr (n + r) ::
        (splitCh (joinCh ((pySplit address).tail.map String.data))).map String.mk := by
    have h0 : pySplit (pyStr (n + r) ++ " " ++ pyJoinSpace (pySplit address).tail)
        = (splitCh (pyStr (n + r) ++ " " ++
            pyJoinSpace (pySplit address).tail).data).map String.mk := rfl
    rw [h0, hsplitq]
    rfl
  have hhead : (pySplit (pyStr (n + r) ++ " " ++
      pyJoinSpace (pySplit address).tail)).headD "" = pyStr (n + r) := by
    rw [hps]
    rfl
  refine ⟨pyStr (n + r) ++ " " ++ pyJoinSpace (pySplit address).tail, hq, ?_, ?_, ?_, ?_⟩
  · -- leading number of the queried address is n + r
    rw [hhead]
    exact pyInt_pyStr (n + r)
  · -- remaining tokens are unchanged
    rw [hps]
    have hcomp : String.data ∘ String.mk = id := rfl
    calc pyJoinSpace ((pyStr (n + r) ::
          (splitCh (joinCh ((pySplit address).tail.map String.data))).map String.mk).tail)
        = ⟨joinCh (((splitCh (joinCh ((pySplit address).tail.map String.data))).map
            String.mk).map String.data)⟩ := rfl
      _ = ⟨joinCh (splitCh (joinCh ((pySplit address).tail.map String.data)))⟩ := by
          rw [List.map_map, hcomp, List.map_id]
      _ = ⟨joinCh ((pySplit address).tail.map String.data)⟩ := by rw [joinCh_splitCh]
      _ = pyJoinSpace (pySplit address).tail := rfl
  · -- the original address is never queried
    intro heq
    have hq2 : pyInt ((pySplit (pyStr (n + r) ++ " " ++
        pyJoinSpace (pySplit address).tail)).headD "") = some (n + r) := by
      rw [hhead]
      exact pyInt_pyStr (n + r)
    rw [heq, hn] at hq2
    have h3 : n = n + r := Option.some.inj hq2
    omega
  · -- the provider is called exactly on the perturbed address
    intro provider
    simp only [extract_geocode_img, hq, extract_geocode]

theorem geocode_variant_never_queries_original_witness :
    (30 ∈ pyRange 30 80 10 ∧
      pyInt ((pySplit "100 MARKET ST").headD "") = some 100) ∧
    ∃ q : String,
      queried_address ((30 : Nat) : Int) "100 MARKET ST" = some q ∧
      pyInt ((pySplit q).headD "") = some (100 + (30 : Nat)) ∧
      pyJoinSpace (pySplit q).tail = pyJoinSpace (pySplit "100 MARKET ST").tail ∧
      q ≠ "100 MARKET ST" ∧
      ∀ provider : String → List (Geocode Int),
        extract_geocode_img provider ((30 : Nat) : Int) "100 MARKET ST"
          = extract_geocode provider q :=
  ⟨⟨by decide, by decide⟩,
    geocode_variant_never_queries_original "100 MARKET ST" 100 30 (by decide) (by decide)⟩

/-! ## Claim about the Imagery Fetcher (C8) -/

/-- Claim C8: for every coordinate, `extract_image` builds exactly one imagery
request per heading in `{0, 90, 180, 270}`, in increasing heading order,
each carrying size `640x640`, pitch `-45`, the point's `lat,lng` location
and the API key, and persists the images under
`image_downloads/<record_id>/` together with a `links.txt` manifest in the
same folder. -/
theorem extract_image_requests (api_key lat lng folder_name : String)
    (street_score : Int) :
    (extract_image api_key lat lng folder_name street_score).params.map SVParams.heading
      = [0, 90, 180, 270] ∧
    List.Pairwise (fun a b => a < b)
      ((extract_image api_key lat lng folder_name street_score).params.map SVParams.heading) ∧
    (∀ p ∈ (extract_image api_key lat lng folder_name street_score).params,
      p.size = "640x640" ∧ p.pitch = "-45" ∧
      p.location = lat ++ "," ++ lng ∧ p.key = api_key) ∧
    (extract_image api_key lat lng folder_name street_score).download_dir
      = "image_downloads/" ++ folder_name ∧
    (extract_image api_key lat lng folder_name street_score).links_path
      = "image_downloads/" ++ folder_name ++ "/links.txt" := by
  refine ⟨rfl, ?_, ?_, rfl, rfl⟩
  · rw [show (extract_image api_key lat lng folder_name street_score).params.map
        SVParams.heading = [0, 90, 180, 270] from rfl]
    decide
  · intro p hp
    have hparams : (extract_image api_key lat lng folder_name street_score).params
        = [⟨"640x640", lat ++ "," ++ lng, 0, "-45", api_key⟩,
           ⟨"640x640", lat ++ "," ++ lng, 90, "-45", api_key⟩,
           ⟨"640x640", lat ++ "," ++ lng, 180, "-45", api_key⟩,
           ⟨"640x640", lat ++ "," ++ lng, 270, "-45", api_key⟩] := rfl
    rw [hparams] at hp
    simp only [List.mem_cons, List.not_mem_nil, or_false] at hp
    rcases hp with h | h | h | h <;> subst h <;> exact ⟨rfl, rfl, rfl, rfl⟩

/-! ## Claims about the Row Selector (C4, C6, C7) -/

theorem drop_duplicates_eq_firstOccurrenceAux {σ : Type} (key : Row σ → String) :
    ∀ (l : List (Row σ)) (seen : List String) (earlier : List (Row σ)),
      (∀ k, k ∈ seen ↔ k ∈ earlier.map key) →
      drop_duplicates key seen l = firstOccurrenceAux key earlier l := by
  intro l
  induction l with
  | nil => intro seen earlier h; rfl
  | cons r rs ih =>
    intro seen earlier h
    by_cases hk : key r ∈ seen
    · rw [drop_duplicates, if_pos hk, firstOccurrenceAux, if_pos ((h _).mp hk)]
      refine ih _ _ fun k => ?_
      rw [List.map_append]
      constructor
      · intro hm
        exact List.mem_append.mpr (Or.inl ((h k).mp hm))
      · intro hm
        rcases List.mem_append.mp hm with hm2 | hm2
        · exact (h k).mpr hm2
        · simp only [List.map_cons, List.map_nil, List.mem_singleton] at hm2
          subst hm2
          exact hk
    · rw [drop_duplicates, if_neg hk, firstOccurrenceAux,
        if_neg (fun hm => hk ((h _).mpr hm))]
      refine congrArg (fun x => r :: x) (ih _ _ fun k => ?_)
      rw [List.map_append]
      constructor
      · intro hm
        rcases List.mem_cons.mp hm with h1 | h1
        · subst h1
          exact List.mem_append.mpr (Or.inr (by simp))
        · exact List.mem_append.mpr (Or.inl ((h k).mp h1))
      · intro hm
        rcases List.mem_append.mp hm with h1 | h1
        · exact List.mem_cons_of_mem _ ((h k).mpr h1)
        · simp only [List.map_cons, List.map_nil, List.mem_singleton] at h1
          subst h1
          exact List.mem_cons_self _ _

/-- Claim C4: the Row Selector applies exactly the six specified filters, in the
specified order: `get_data` coincides with the spec's pipeline
`rowSelectorSpec` on every input table and directory listing. -/
theorem get_data_eq_rowSelectorSpec {σ : Type} (listing : List String)
    (street_class_names score_colors : List String) (rows : List (Row σ)) :
    get_data listing street_class_names score_colors rows
      = rowSelectorSpec listing street_class_names score_colors rows := by
  have hd := drop_duplicates_eq_firstOccurrenceAux
    (fun r : Row σ => r.lr_hundred_block)
    (List.filter (fun r => decide (r.score_color ∈ score_colors))
      (List.filter (fun r => decide (r.street_class_name ∈ street_class_names))
        (List.filter (fun r => pyIsDecimal ((pySplit r.lr_hundred_block).headD ""))
          rows)))
    [] [] (fun k => by simp)
  show List.take 1
      (List.filter (fun r => decide (pyStr r.objectid ∉ listing))
        (drop_duplicates (fun r : Row σ => r.lr_hundred_block) []
          (List.filter (fun r => decide (r.score_color ∈ score_colors))
            (List.filter (fun r => decide (r.street_class_name ∈ street_class_names))
              (List.filter (fun r => pyIsDecimal ((pySplit r.lr_hundred_block).headD ""))
                rows)))))
    = List.take 1
      (List.filter (fun r => decide (pyStr r.objectid ∉ listing))
        (firstOccurrenceAux (fun r : Row σ => r.lr_hundred_block) []
          (List.filter (fun r => decide (r.score_color ∈ score_colors))
            (List.filter (fun r => decide (r.street_class_name ∈ street_class_names))
              (List.filter (fun r => pyIsDecimal ((pySplit r.lr_hundred_block).headD ""))
                rows)))))
  rw [hd]

theorem mem_of_mem_drop_duplicates {σ : Type} (key : Row σ → String) :
    ∀ (l : List (Row σ)) (seen : List String) (r : Row σ),
      r ∈ drop_duplicates key seen l → r ∈ l := by
  intro l
  induction l with
  | nil => intro seen r h; exact absurd h (by simp [drop_duplicates])
  | cons x xs ih =>
    intro seen r h
    rw [drop_duplicates] at h
    by_cases hk : key x ∈ seen
    · rw [if_pos hk] at h
      exact List.mem_cons_of_mem x (ih _ _ h)
    · rw [if_neg hk] at h
      rcases List.mem_cons.mp h with h1 | h1
      · exact h1 ▸ List.mem_cons_self x xs
      · exact List.mem_cons_of_mem x (ih _ _ h1)

theorem get_data_mem {σ : Type} (listing : List String)
    (street_class_names score_colors : List String) (rows : List (Row σ))
    (r : Row σ) (h : r ∈ get_data listing street_class_names score_colors rows) :
    pyIsDecimal ((pySplit r.lr_hundred_block).headD "") = true ∧
    r.street_class_name ∈ street_class_names ∧
    r.score_color ∈ score_colors ∧
    pyStr r.objectid ∉ listing := by
  unfold get_data at h
  have h5 := List.mem_of_mem_take h
  have h5f := List.mem_filter.mp h5
  have h4 := mem_of_mem_drop_duplicates _ _ _ _ h5f.1
  have h3 := List.mem_filter.mp h4
  have h2 := List.mem_filter.mp h3.1
  have h1 := List.mem_filter.mp h2.1
  exact ⟨h1.2, of_decide_eq_true h2.2, of_decide_eq_true h3.2,
    of_decide_eq_true h5f.2⟩

theorem length_get_data_le_one {σ : Type} (listing : List String)
    (street_class_names score_colors : List String) (rows : List (Row σ)) :
    (get_data listing street_class_names score_colors rows).length ≤ 1 := by
  unfold get_data
  exact List.length_take_le 1 _

/-- Claim C7: for every input table, the Row Selector returns at most the
configured truncation count of rows (the source truncates with
`iloc[:1]`). -/
theorem get_data_length_le {σ : Type} (listing : List String)
    (street_class_names score_colors : List String) (rows : List (Row σ)) :
    (get_data listing street_class_names score_colors rows).length ≤ 1 :=
  length_get_data_le_one listing street_class_names score_colors rows

/-- Claim C6: the Row Selector is idempotent: with the same allow-lists and the
same `image_downloads` listing, running `get_data` on its own output
returns that output unchanged. -/
theorem get_data_idempotent {σ : Type} (listing : List String)
    (street_class_names score_colors : List String) (rows : List (Row σ)) :
    get_data listing street_class_names score_colors
        (get_data listing street_class_names score_colors rows)
      = get_data listing street_class_names score_colors rows := by
  cases hres : get_data listing street_class_names score_colors rows with
  | nil => rfl
  | cons r rest =>
    have hlen := length_get_data_le_one listing street_class_names score_colors rows
    rw [hres] at hlen
    simp only [List.length_cons, Nat.succ_le_succ_iff, Nat.le_zero,
      List.length_eq_zero] at hlen
    subst hlen
    have hmem : r ∈ get_data listing street_class_names score_colors rows := by
      rw [hres]
      exact List.mem_cons_self r []
    obtain ⟨ha, hb, hc, he⟩ :=
      get_data_mem listing street_class_names score_colors rows r hmem
    have hb2 : decide (r.street_class_name ∈ street_class_names) = true :=
      decide_eq_true hb
    have hc2 : decide (r.score_color ∈ score_colors) = true := decide_eq_true hc
    have he2 : decide (pyStr r.objectid ∈ listing) = false := by
      simp only [decide_eq_false_iff_not]
      exact he
    show get_data listing street_class_names score_colors [r] = [r]
    unfold get_data
    simp at ha
    simp [List.filter_cons, ha, hb2, hc2, he2, drop_duplicates]

/-! ## Claims about the Pixel Flattener (C2, C10) -/

theorem folderRows_eq_filter_map {π : Type} (street_score : π)
    (files : List (FolderFile π)) :
    folderRows street_score files
      = (files.filter fun f => pyEndsWith f.name ".jpg").map
          fun f => flattenImage f.img ++ [street_score] := by
  induction files with
  | nil => rfl
  | cons f fs ih =>
    by_cases h : pyEndsWith f.name ".jpg"
    · simp [folderRows, List.filter_cons, h, ih]
    · simp [folderRows, List.filter_cons, h, ih]

theorem flatten_length_uniform {π : Type} (L : List (List π)) (c : Nat)
    (h : ∀ x ∈ L, x.length = c) : L.flatten.length = L.length * c := by
  induction L with
  | nil => simp
  | cons x xs ih =>
    simp only [List.flatten_cons, List.length_append, List.length_cons]
    rw [h x (List.mem_cons_self x xs),
      ih fun y hy => h y (List.mem_cons_of_mem x hy)]
    ring

theorem flatMap_length_uniform {α β : Type} (L : List α) (f : α → List β)
    (c : Nat) (h : ∀ x ∈ L, (f x).length = c) :
    (L.flatMap f).length = L.length * c := by
  induction L with
  | nil => simp
  | cons x xs ih =>
    show (f x ++ xs.flatMap f).length = (xs.length + 1) * c
    rw [List.length_append, h x (List.mem_cons_self x xs),
      ih fun y hy => h y (List.mem_cons_of_mem x hy)]
    ring

theorem flattenRow_length {π : Type} (row : List (π × π × π)) :
    (row.flatMap fun p => [p.1, p.2.1, p.2.2]).length = 3 * row.length := by
  have h3 : ∀ p : π × π × π, ([p.1, p.2.1, p.2.2] : List π).length = 3 :=
    fun p => rfl
  rw [flatMap_length_uniform row _ 3 (fun p _ => h3 p)]
  ring

theorem flattenImage_length {π : Type} (img : RGBImage π) (h w : Nat)
    (hs : img.hasSize h w) : (flattenImage img).length = h * (3 * w) := by
  obtain ⟨hlen, hrow⟩ := hs
  unfold flattenImage
  rw [flatMap_length_uniform _ _ (3 * w)
    (fun row hr => by rw [flattenRow_length, hrow row hr]), hlen]


theorem chunkList_spec {π : Type} (c : Nat) (hc : 0 < c) :
    ∀ (k : Nat) (l : List π), l.length = k * c →
      (chunkList c l).length = k ∧ ∀ ch ∈ chunkList c l, ch.length = c := by
  intro k
  induction k with
  | zero =>
    intro l hl
    have : l = [] := List.length_eq_zero.mp (by simpa using hl)
    subst this
    simp [chunkList]
  | succ k ih =>
    intro l hl
    have hpos : 0 < l.length := by
      rw [hl]
      exact Nat.mul_pos (Nat.succ_pos k) hc
    cases l with
    | nil => simp at hpos
    | cons x xs =>
      rw [chunkList, dif_neg (Nat.pos_iff_ne_zero.mp hc)]
      have hcle : c ≤ (x :: xs).length := by
        rw [hl]
        exact Nat.le_mul_of_pos_left c (Nat.succ_pos k)
      have htake : ((x :: xs).take c).length = c := by
        rw [List.length_take]
        exact min_eq_left hcle
      have hdrop : ((x :: xs).drop c).length = k * c := by
        rw [List.length_drop, hl]
        rw [Nat.succ_mul]
        omega
      obtain ⟨ih1, ih2⟩ := ih _ hdrop
      refine ⟨by simp [ih1], ?_⟩
      intro ch hch
      rcases List.mem_cons.mp hch with h | h
      · exact h ▸ htake
      · exact ih2 ch h

/-- Claim C10: the Pixel Flattener decodes only files whose name ends in `.jpg`:
the collected rows are exactly one flattened row per `.jpg` file, and any
other file (in particular the `links.txt` manifest) contributes no row. -/
theorem pixel_flattener_only_jpg {π : Type} (street_score : π)
    (files : List (FolderFile π)) :
    folderRows street_score files
      = (files.filter fun f => pyEndsWith f.name ".jpg").map
          (fun f => flattenImage f.img ++ [street_score]) ∧
    ∀ f ∈ files, pyEndsWith f.name ".jpg" = false →
      folderRows street_score [f] = [] := by
  refine ⟨folderRows_eq_filter_map street_score files, ?_⟩
  intro f _ hends
  simp [folderRows, hends]

/-- Claim C2: when every `.jpg` file of a record folder decodes to a 640×640 RGB
image, every output row of the Pixel Flattener has length exactly
`640*640*3 + 1 = 1228801`, and a folder whose number of decodable images
differs from the expected count 4 makes the reshape step fail with
`ValueError` instead of emitting any malformed row. -/
theorem pixel_flattener_row_length {π : Type} (street_score : π)
    (files : List (FolderFile π))
    (himg : ∀ f ∈ files, pyEndsWith f.name ".jpg" = true →
      f.img.hasSize 640 640) :
    ((files.filter fun f => pyEndsWith f.name ".jpg").length = 4 →
      ∃ rows, extract_pixel_data_folder street_score files = .ok rows ∧
        rows.length = 4 ∧ ∀ row ∈ rows, row.length = 640 * 640 * 3 + 1) ∧
    ((files.filter fun f => pyEndsWith f.name ".jpg").length ≠ 4 →
      extract_pixel_data_folder street_score files
        = .error "ValueError: cannot reshape array") := by
  have hrow_each : ∀ row ∈ folderRows street_score files,
      row.length = 640 * 640 * 3 + 1 := by
    intro row hrow
    rw [folderRows_eq_filter_map] at hrow
    rcases List.mem_map.mp hrow with ⟨f, hf, rfl⟩
    have hmemf := (List.mem_filter.mp hf).1
    have hjpg := (List.mem_filter.mp hf).2
    rw [List.length_append,
      flattenImage_length f.img 640 640 (himg f hmemf hjpg)]
    norm_num
  have hrows_len : (folderRows street_score files).length
      = (files.filter fun f => pyEndsWith f.name ".jpg").length := by
    rw [folderRows_eq_filter_map, List.length_map]
  have hflat : (folderRows street_score files).flatten.length
      = (files.filter fun f => pyEndsWith f.name ".jpg").length
          * (640 * 640 * 3 + 1) := by
    rw [flatten_length_uniform _ _ hrow_each, hrows_len]
  constructor
  · intro h4
    refine ⟨chunkList (640 * 640 * 3 + 1) (folderRows street_score files).flatten,
      ?_, ?_, ?_⟩
    · simp only [extract_pixel_data_folder, npReshape]
      rw [if_pos (by rw [hflat, h4])]
    · exact (chunkList_spec (640 * 640 * 3 + 1) (by norm_num) 4 _
        (by rw [hflat, h4])).1
    · exact (chunkList_spec (640 * 640 * 3 + 1) (by norm_num) 4 _
        (by rw [hflat, h4])).2
  · intro h4
    simp only [extract_pixel_data_folder, npReshape]
    rw [if_neg]
    rw [hflat]
    intro hcontra
    exact h4 (Nat.eq_of_mul_eq_mul_right (by norm_num) hcontra)

/-- A 640×640 all-zero RGB test image. -/
def testImage : RGBImage Nat :=
  ⟨List.replicate 640 (List.replicate 640 (0, 0, 0))⟩

theorem testImage_hasSize : testImage.hasSize 640 640 := by
  refine ⟨?_, ?_⟩
  · exact List.length_replicate 640 _
  · intro row hrow
    rw [List.eq_of_mem_replicate hrow]
    exact List.length_replicate 640 _

theorem pixel_flattener_row_length_witness :
    ∃ rows, extract_pixel_data_folder 7
        (List.replicate 4 (FolderFile.mk "0.jpg" testImage))
          = .ok rows ∧ rows.length = 4 ∧
          ∀ row ∈ rows, row.length = 640 * 640 * 3 + 1 :=
  (pixel_flattener_row_length 7 (List.replicate 4 (FolderFile.mk "0.jpg" testImage))
    (fun f hf _ => by rw [List.eq_of_mem_replicate hf]; exact testImage_hasSize)).1
    (by
      have hfil : (List.replicate 4 (FolderFile.mk "0.jpg" testImage)).filter
          (fun f => pyEndsWith f.name ".jpg")
            = List.replicate 4 (FolderFile.mk "0.jpg" testImage) :=
        List.filter_eq_self.mpr fun f hf => by
          rw [List.eq_of_mem_replicate hf]
          decide
      rw [hfil]
      exact List.length_replicate 4 _)

/-! ## Claim about the Parallel Dispatcher (C3)

The proof is by an inductive invariant over the step relation: the queue,
the jobs held by workers between their pop and the end of their
`extract_image` call, and the executed log always form a permutation of
the enqueued jobs; and as the queue never grows, any finished worker
certifies that the queue is already empty.
-/

/-- The jobs a single worker holds (one for a worker between pop and
execution, none otherwise). -/
def contribOf {α : Type} : WStatus α → List α
  | .atExec j => [j]
  | _ => []

theorem heldJobs_eq_flatMap {α : Type} (ws : List (WStatus α)) :
    heldJobs ws = ws.flatMap contribOf := by
  induction ws with
  | nil => rfl
  | cons w ws ih =>
    show (match w with | .atExec j => [j] | _ => ([] : List _)) ++ heldJobs ws
      = contribOf w ++ ws.flatMap contribOf
    rw [ih]
    cases w <;> rfl

theorem flatMap_split {α β : Type} (f : α → List β) :
    ∀ (ws : List α) (i : Nat) (h : i < ws.length) (w' : α),
      ∃ A B, ws.flatMap f = A ++ (f (ws.get ⟨i, h⟩) ++ B) ∧
        (ws.set i w').flatMap f = A ++ (f w' ++ B) := by
  intro ws
  induction ws with
  | nil => intro i h w'; exact absurd h (by simp)
  | cons x xs ih =>
    intro i h w'
    cases i with
    | zero => exact ⟨[], xs.flatMap f, by simp, by simp⟩
    | succ i =>
      have h2 : i < xs.length := Nat.lt_of_succ_lt_succ h
      obtain ⟨A, B, hA, hB⟩ := ih i h2 w'
      refine ⟨f x ++ A, B, ?_, ?_⟩
      · show f x ++ xs.flatMap f = (f x ++ A) ++ (f (xs.get ⟨i, h2⟩) ++ B)
        rw [hA, List.append_assoc]
      · show f x ++ (xs.set i w').flatMap f = (f x ++ A) ++ (f w' ++ B)
        rw [hB, List.append_assoc]

/-- The dispatcher invariant: worker count is fixed; queue, held jobs and
executed log together are a permutation of the enqueued jobs; and any
finished worker witnesses an already-empty queue. -/
def DInv {α : Type} (jobs : List α) (n : Nat) (s : DState α) : Prop :=
  s.workers.length = n ∧
  ((s.queue : Multiset α) + (heldJobs s.workers : Multiset α)
      + (s.executed : Multiset α) = (jobs : Multiset α)) ∧
  ∀ w ∈ s.workers, w.finished = true → s.queue = []

theorem DInv_init {α : Type} (jobs : List α) (n : Nat) :
    DInv jobs n (initState jobs n) := by
  have hh : heldJobs (List.replicate n (.atCheck : WStatus α)) = [] := by
    rw [heldJobs_eq_flatMap]
    induction n with
    | zero => rfl
    | succ n ih =>
      rw [List.replicate_succ]
      show contribOf (.atCheck : WStatus α) ++
        (List.replicate n (.atCheck : WStatus α)).flatMap contribOf = []
      rw [← heldJobs_eq_flatMap] at ih ⊢
      simpa [contribOf] using ih
  refine ⟨List.length_replicate n _, ?_, ?_⟩
  · show (jobs : Multiset α)
        + (heldJobs (List.replicate n (.atCheck : WStatus α)) : Multiset α)
        + (([] : List α) : Multiset α) = (jobs : Multiset α)
    rw [hh]
    simp
  · intro w hw hwfin
    rw [List.eq_of_mem_replicate hw] at hwfin
    simp [WStatus.finished] at hwfin

theorem DInv_step {α : Type} {jobs : List α} {n : Nat} {s t : DState α}
    (hst : DStep s t) (hinv : DInv jobs n s) : DInv jobs n t := by
  obtain ⟨hlen, hperm, hfin⟩ := hinv
  cases hst with
  | checkPos i h hget hq =>
    obtain ⟨A, B, hA, hB⟩ := flatMap_split contribOf s.workers i h .atPop
    have hh : heldJobs (s.workers.set i .atPop) = heldJobs s.workers := by
      rw [heldJobs_eq_flatMap, heldJobs_eq_flatMap, hA, hB, hget]
      rfl
    refine ⟨by simpa using hlen, ?_, ?_⟩
    · show (s.queue : Multiset α) + (heldJobs (s.workers.set i .atPop) : Multiset α)
          + (s.executed : Multiset α) = (jobs : Multiset α)
      rw [hh]
      exact hperm
    · intro w hw hwfin
      rcases List.mem_or_eq_of_mem_set hw with hw2 | hw2
      · exact hfin w hw2 hwfin
      · subst hw2; simp [WStatus.finished] at hwfin
  | checkNeg i h hget hq =>
    obtain ⟨A, B, hA, hB⟩ := flatMap_split contribOf s.workers i h .done
    have hh : heldJobs (s.workers.set i .done) = heldJobs s.workers := by
      rw [heldJobs_eq_flatMap, heldJobs_eq_flatMap, hA, hB, hget]
      rfl
    refine ⟨by simpa using hlen, ?_, fun w hw hwfin => hq⟩
    show (s.queue : Multiset α) + (heldJobs (s.workers.set i .done) : Multiset α)
        + (s.executed : Multiset α) = (jobs : Multiset α)
    rw [hh]
    exact hperm
  | popPos i h j q hget hq =>
    obtain ⟨A, B, hA, hB⟩ := flatMap_split contribOf s.workers i h (.atExec j)
    rw [hget] at hA
    refine ⟨by simpa using hlen, ?_, ?_⟩
    · show (q : Multiset α) + (heldJobs (s.workers.set i (.atExec j)) : Multiset α)
          + (s.executed : Multiset α) = (jobs : Multiset α)
      rw [heldJobs_eq_flatMap, hB]
      rw [hq, heldJobs_eq_flatMap, hA] at hperm
      rw [← hperm]
      simp only [contribOf, ← Multiset.coe_add, List.nil_append,
        Multiset.coe_singleton]
      abel
    · intro w hw hwfin
      rcases List.mem_or_eq_of_mem_set hw with hw2 | hw2
      · have hq0 := hfin w hw2 hwfin
        rw [hq] at hq0
        exact absurd hq0 (by simp)
      · subst hw2; simp [WStatus.finished] at hwfin
  | popNeg i h hget hq =>
    obtain ⟨A, B, hA, hB⟩ := flatMap_split contribOf s.workers i h .crashed
    have hh : heldJobs (s.workers.set i .crashed) = heldJobs s.workers := by
      rw [heldJobs_eq_flatMap, heldJobs_eq_flatMap, hA, hB, hget]
      rfl
    refine ⟨by simpa using hlen, ?_, fun w hw hwfin => hq⟩
    show (s.queue : Multiset α) + (heldJobs (s.workers.set i .crashed) : Multiset α)
        + (s.executed : Multiset α) = (jobs : Multiset α)
    rw [hh]
    exact hperm
  | exec i h j hget =>
    obtain ⟨A, B, hA, hB⟩ := flatMap_split contribOf s.workers i h .atCheck
    rw [hget] at hA
    refine ⟨by simpa using hlen, ?_, ?_⟩
    · show (s.queue : Multiset α) + (heldJobs (s.workers.set i .atCheck) : Multiset α)
          + ((s.executed ++ [j] : List α) : Multiset α) = (jobs : Multiset α)
      rw [heldJobs_eq_flatMap, hB]
      rw [heldJobs_eq_flatMap, hA] at hperm
      rw [← hperm]
      simp only [contribOf, ← Multiset.coe_add, List.nil_append,
        Multiset.coe_singleton]
      abel
    · intro w hw hwfin
      rcases List.mem_or_eq_of_mem_set hw with hw2 | hw2
      · exact hfin w hw2 hwfin
      · subst hw2; simp [WStatus.finished] at hwfin

theorem DInv_reach {α : Type} (jobs : List α) (n : Nat) (s : DState α)
    (h : DReach (initState jobs n) s) : DInv jobs n s := by
  induction h with
  | refl => exact DInv_init jobs n
  | tail hab hbc ih => exact DInv_step hbc ih

theorem heldJobs_nil_of_finished {α : Type} :
    ∀ ws : List (WStatus α), (∀ w ∈ ws, w.finished = true) →
      heldJobs ws = [] := by
  intro ws
  induction ws with
  | nil => intro _; rfl
  | cons w ws ih =>
    intro h
    have hw := h w (List.mem_cons_self w ws)
    have hcontrib : contribOf w = [] := by
      cases w <;> first | rfl | simp [WStatus.finished] at hw
    rw [heldJobs_eq_flatMap]
    show contribOf w ++ ws.flatMap contribOf = []
    rw [hcontrib, ← heldJobs_eq_flatMap,
      ih fun x hx => h x (List.mem_cons_of_mem w hx)]
    rfl

/-- Claim C3: for every finite list of enqueued fetch jobs and every worker
count from 1 upward, under every interleaving of the workers' atomic
emptiness checks and pops, once all workers have left their loops the
executed jobs are a permutation of the enqueued jobs — no job executed
twice, none dropped — and the shared queue is empty. -/
theorem dispatcher_each_job_exactly_once {α : Type} (jobs : List α)
    (n : Nat) (hn : 1 ≤ n) (s : DState α)
    (hreach : DReach (initState jobs n) s)
    (hdone : ∀ w ∈ s.workers, w.finished = true) :
    s.executed.Perm jobs ∧ s.queue = [] := by
  obtain ⟨hlen, hperm, hfin⟩ := DInv_reach jobs n s hreach
  have hwex : s.workers ≠ [] := by
    intro hc
    rw [hc] at hlen
    simp at hlen
    omega
  obtain ⟨w0, hw0⟩ := List.exists_mem_of_ne_nil s.workers hwex
  have hq : s.queue = [] := hfin w0 hw0 (hdone w0 hw0)
  have hheld : heldJobs s.workers = [] :=
    heldJobs_nil_of_finished s.workers hdone
  rw [hq, hheld] at hperm
  refine ⟨?_, hq⟩
  have hms : (s.executed : Multiset α) = (jobs : Multiset α) := by
    simpa using hperm
  exact Multiset.coe_eq_coe.mp hms

theorem dispatcher_each_job_exactly_once_witness :
    1 ≤ 1 ∧
    (DState.mk ([] : List Nat) [WStatus.done] [7]).executed.Perm [7] ∧
    (DState.mk ([] : List Nat) [WStatus.done] [7]).queue = [] := by
  have hstep1 : DStep (initState [7] 1)
      (DState.mk [7] [WStatus.atPop] ([] : List Nat)) :=
    DStep.checkPos (initState [7] 1) 0 (by decide) rfl (by decide)
  have hstep2 : DStep (DState.mk [7] [WStatus.atPop] ([] : List Nat))
      (DState.mk ([] : List Nat) [WStatus.atExec 7] []) :=
    DStep.popPos _ 0 (by decide) 7 [] rfl rfl
  have hstep3 : DStep (DState.mk ([] : List Nat) [WStatus.atExec 7] [])
      (DState.mk ([] : List Nat) [WStatus.atCheck] [7]) :=
    DStep.exec _ 0 (by decide) 7 rfl
  have hstep4 : DStep (DState.mk ([] : List Nat) [WStatus.atCheck] [7])
      (DState.mk ([] : List Nat) [WStatus.done] [7]) :=
    DStep.checkNeg _ 0 (by decide) rfl rfl
  have hreach : DReach (initState [7] 1)
      (DState.mk ([] : List Nat) [WStatus.done] [7]) :=
    Relation.ReflTransGen.head hstep1 (Relation.ReflTransGen.head hstep2
      (Relation.ReflTransGen.head hstep3 (Relation.ReflTransGen.head hstep4
        Relation.ReflTransGen.refl)))
  exact ⟨le_refl 1,
    dispatcher_each_job_exactly_once [7] 1 (le_refl 1) _ hreach (by decide)⟩

end LitterMaps
